import Mathlib

/-!
Verification of the Bayesian active-inference core of the
Adaptive-Learning-App repository (the class ActiveInferenceLearner in
src/algo.py) against its natural-language specification.

The numeric code (numpy arrays of floats) is embedded shallowly over the
real numbers: a belief/grid array of size n becomes a function Fin n → ℝ,
numpy elementwise operations become pointwise operations, np.sum becomes
Finset.sum, np.exp becomes Real.exp, and scipy.stats.entropy (which
normalizes its argument and uses the natural logarithm) becomes a sum of
Real.negMulLog over the normalized vector.
-/

namespace AdaptiveLearning

/-- Model of numpy.linspace lo hi n (endpoint inclusive): for n at least 2
the i-th sample is lo + i*(hi-lo)/(n-1); for n = 1 numpy returns the single
sample lo; for n = 0 the array is empty (so the function is vacuous). -/
noncomputable def linspace (lo hi : ℝ) (n : ℕ) (i : Fin n) : ℝ :=
  if n = 1 then lo else lo + (i : ℝ) * (hi - lo) / ((n : ℝ) - 1)

/-- State of the estimator in src/algo.py: the ability grid set up by
the constructor and the mutable belief array. -/
structure ActiveInferenceLearner (n : ℕ) where
  ability_grid : Fin n → ℝ
  belief : Fin n → ℝ

/-- The constructor of ActiveInferenceLearner (src/algo.py lines 6-11):
ability_grid = np.linspace(0.01, 0.99, grid_size),
belief = np.ones(grid_size) / grid_size (the uniform prior).
There is no validation of grid_size in the source. -/
noncomputable def ActiveInferenceLearner.init (grid_size : ℕ) :
    ActiveInferenceLearner grid_size where
  ability_grid := linspace 0.01 0.99 grid_size
  belief := fun _ => 1 / (grid_size : ℝ)

/-- predict_success_prob (src/algo.py lines 13-34): the 4PL IRT style
observation model with guessing factor 0.25, slipping factor 0.05 and
steepness 10. The method reads no field of self. -/
noncomputable def ActiveInferenceLearner.predict_success_prob {n : ℕ}
    (_self : ActiveInferenceLearner n) (difficulty ability : ℝ) : ℝ :=
  let guess_factor : ℝ := 0.25
  let slip_factor : ℝ := 0.05
  let base_prob : ℝ := 1 / (1 + Real.exp (-10 * (ability - difficulty)))
  guess_factor + (1 - guess_factor - slip_factor) * base_prob

/-- get_estimated_ability (src/algo.py lines 50-52):
np.sum(self.ability_grid * self.belief). -/
noncomputable def ActiveInferenceLearner.get_estimated_ability {n : ℕ}
    (self : ActiveInferenceLearner n) : ℝ :=
  ∑ i, self.ability_grid i * self.belief i

/-- update_belief (src/algo.py lines 36-48): compute the likelihood over the
grid, complement it when is_correct == 0, multiply into the belief, divide
by the total, store the result as the new belief, and return the new point
estimate. The Python method mutates self and returns a float; the embedding
returns the new state paired with the returned float. There is no guard on
the normalizing sum and no validation of difficulty in the source.
is_correct is modelled as a real number because Python only tests it with
== 0 (booleans compare equal to 0/1). -/
noncomputable def ActiveInferenceLearner.update_belief {n : ℕ}
    (self : ActiveInferenceLearner n) (difficulty is_correct : ℝ) :
    ActiveInferenceLearner n × ℝ :=
  let likelihood : Fin n → ℝ :=
    fun i => self.predict_success_prob difficulty (self.ability_grid i)
  let likelihood : Fin n → ℝ :=
    if is_correct = 0 then fun i => 1 - likelihood i else likelihood
  let unnormalized_posterior : Fin n → ℝ := fun i => self.belief i * likelihood i
  let next : ActiveInferenceLearner n :=
    { self with
        belief := fun i => unnormalized_posterior i / ∑ j, unnormalized_posterior j }
  (next, next.get_estimated_ability)

/-- scipy.stats.entropy with natural log: the input vector is first
normalized to sum 1, then the Shannon entropy -sum p log p is taken, with
the 0 log 0 = 0 convention (Real.negMulLog). -/
noncomputable def entropy {n : ℕ} (pk : Fin n → ℝ) : ℝ :=
  ∑ i, Real.negMulLog (pk i / ∑ j, pk j)

/-- get_current_entropy (src/algo.py lines 54-59): entropy(self.belief). -/
noncomputable def ActiveInferenceLearner.get_current_entropy {n : ℕ}
    (self : ActiveInferenceLearner n) : ℝ :=
  entropy self.belief

/-- calculate_eig (src/algo.py lines 61-89): current entropy minus the
expected posterior entropy over the two simulated outcomes. The two
simulated posteriors are normalized on local arrays. -/
noncomputable def ActiveInferenceLearner.calculate_eig {n : ℕ}
    (self : ActiveInferenceLearner n) (difficulty : ℝ) : ℝ :=
  let current_entropy : ℝ := entropy self.belief
  let likelihood_grid : Fin n → ℝ :=
    fun i => self.predict_success_prob difficulty (self.ability_grid i)
  let p_correct : ℝ := ∑ i, likelihood_grid i * self.belief i
  let p_wrong : ℝ := 1.0 - p_correct
  let post_correct : Fin n → ℝ := fun i => self.belief i * likelihood_grid i
  let post_correct : Fin n → ℝ := fun i => post_correct i / ∑ j, post_correct j
  let h_correct : ℝ := entropy post_correct
  let likelihood_wrong : Fin n → ℝ := fun i => 1.0 - likelihood_grid i
  let post_wrong : Fin n → ℝ := fun i => self.belief i * likelihood_wrong i
  let post_wrong : Fin n → ℝ := fun i => post_wrong i / ∑ j, post_wrong j
  let h_wrong : ℝ := entropy post_wrong
  let expected_posterior_entropy : ℝ := p_correct * h_correct + p_wrong * h_wrong
  current_entropy - expected_posterior_entropy

/-- calculate_eig with the state threaded through explicitly, mirroring that
the Python method only reads self.belief and self.ability_grid and assigns
only the local arrays post_correct and post_wrong: the state coming out of
the call is the state that went in. -/
noncomputable def ActiveInferenceLearner.calculate_eig_run {n : ℕ}
    (self : ActiveInferenceLearner n) (difficulty : ℝ) :
    ℝ × ActiveInferenceLearner n :=
  (self.calculate_eig difficulty, self)

/-- A row of the question pool DataFrame, as select_next_question uses it:
an id column (tested against history_ids) and a difficulty column. -/
structure Question where
  id : ℕ
  difficulty : ℝ

/-- select_next_question (src/algo.py lines 91-108): filter out questions
whose id is in history_ids (preserving pool order), return None when empty,
otherwise take iloc[0] of sort_values(eig, ascending=False).
pandas nargsort with ascending=False reverses the value array and the row
index array, takes the ascending argsort of the reversed values (numpy
falls back to stable insertion sort on arrays of these sizes), and then
reverses the resulting indexer; in list terms the descending row order is
reverse (stableSortAscending (reverse available)), which on tied keys
preserves first-occurrence order. -/
noncomputable def ActiveInferenceLearner.select_next_question {n : ℕ}
    (self : ActiveInferenceLearner n) (question_pool : List Question)
    (history_ids : List ℕ) : Option Question :=
  let available_questions : List Question :=
    question_pool.filter (fun q => decide (q.id ∉ history_ids))
  if available_questions.isEmpty then none
  else
    (((available_questions.reverse).insertionSort
        (fun q1 q2 => self.calculate_eig q1.difficulty ≤ self.calculate_eig q2.difficulty)).reverse).head?

/-- The states reachable from a fresh estimator by valid calls of
update_belief (the spec calls a call valid when the difficulty lies in
[0,1]; the outcome argument is unconstrained). -/
inductive Reachable {n : ℕ} : ActiveInferenceLearner n → Prop
  | init : Reachable (ActiveInferenceLearner.init n)
  | step {s : ActiveInferenceLearner n} (d o : ℝ) (hd0 : 0 ≤ d) (hd1 : d ≤ 1)
      (hs : Reachable s) : Reachable (s.update_belief d o).1

/-- The effective likelihood entry used by update_belief for outcome o at
grid index i: the complement of the predicted success probability when
o == 0, the predicted success probability itself otherwise. -/
noncomputable def obsLikelihood {n : ℕ} (self : ActiveInferenceLearner n)
    (difficulty o : ℝ) (i : Fin n) : ℝ :=
  if o = 0 then 1 - self.predict_success_prob difficulty (self.ability_grid i)
  else self.predict_success_prob difficulty (self.ability_grid i)

/-- A belief vector engineered so that the unnormalized posterior of an
update at difficulty 1/2 with outcome 1 sums to exactly zero (one positive
and one negative entry balanced against the two likelihood values).  Used
to exhibit the missing normalization guard of update_belief. -/
noncomputable def degenerate_state : ActiveInferenceLearner 2 where
  ability_grid := (ActiveInferenceLearner.init 2).ability_grid
  belief := fun i =>
    if i = 0 then
      (ActiveInferenceLearner.init 2).predict_success_prob (1/2)
        ((ActiveInferenceLearner.init 2).ability_grid 1)
    else
      -(ActiveInferenceLearner.init 2).predict_success_prob (1/2)
        ((ActiveInferenceLearner.init 2).ability_grid 0)

/-- A size-1 state with an all-zero belief: its unnormalized posterior sums
to zero on any call. -/
noncomputable def zero_state : ActiveInferenceLearner 1 where
  ability_grid := fun _ => 0.01
  belief := fun _ => 0

/-- The logistic base probability lies strictly between 0 and 1. -/
lemma base_prob_bounds (t : ℝ) :
    0 < 1 / (1 + Real.exp t) ∧ 1 / (1 + Real.exp t) < 1 := by
  have he : 0 < Real.exp t := Real.exp_pos t
  constructor
  · positivity
  · rw [div_lt_one (by linarith)]
    linarith

/-- The predicted success probability lies strictly between 0 and 1
(in fact between the guessing floor 0.25 and 1 minus the slipping
factor, 0.95), for every difficulty and ability value whatsoever. -/
lemma predict_success_prob_bounds {n : ℕ} (s : ActiveInferenceLearner n)
    (d a : ℝ) :
    0 < s.predict_success_prob d a ∧ s.predict_success_prob d a < 1 := by
  have hb := base_prob_bounds (-10 * (a - d))
  unfold ActiveInferenceLearner.predict_success_prob
  dsimp only
  set b : ℝ := 1 / (1 + Real.exp (-10 * (a - d))) with hbdef
  constructor <;> · norm_num; linarith [hb.1, hb.2]

/-- The predicted success probability is strictly increasing in ability. -/
lemma predict_success_prob_strictMono {n : ℕ} (s : ActiveInferenceLearner n)
    (d : ℝ) {a b : ℝ} (hab : a < b) :
    s.predict_success_prob d a < s.predict_success_prob d b := by
  have he1 : (0 : ℝ) < 1 + Real.exp (-10 * (a - d)) := by positivity
  have he2 : (0 : ℝ) < 1 + Real.exp (-10 * (b - d)) := by positivity
  have hexp : Real.exp (-10 * (b - d)) < Real.exp (-10 * (a - d)) :=
    Real.exp_lt_exp.mpr (by linarith)
  have hbase : 1 / (1 + Real.exp (-10 * (a - d)))
      < 1 / (1 + Real.exp (-10 * (b - d))) := by
    apply one_div_lt_one_div_of_lt he2
    linarith
  unfold ActiveInferenceLearner.predict_success_prob
  dsimp only
  set b1 : ℝ := 1 / (1 + Real.exp (-10 * (a - d))) with hb1def
  set b2 : ℝ := 1 / (1 + Real.exp (-10 * (b - d))) with hb2def
  norm_num
  linarith [hbase]

/-- The effective likelihood of update_belief lies strictly between 0 and 1. -/
lemma obsLikelihood_bounds {n : ℕ} (s : ActiveInferenceLearner n)
    (d o : ℝ) (i : Fin n) :
    0 < obsLikelihood s d o i ∧ obsLikelihood s d o i < 1 := by
  have hp := predict_success_prob_bounds s d (s.ability_grid i)
  unfold obsLikelihood
  by_cases h : o = 0 <;> simp [h] <;> constructor <;> linarith [hp.1, hp.2]

/-- Unfolding equation for update_belief: the new belief is the belief times
the effective likelihood, divided by the total of that product, and the
returned value is the point estimate of the new belief. -/
lemma update_belief_eq {n : ℕ} (s : ActiveInferenceLearner n) (d o : ℝ) :
    s.update_belief d o =
      ({ ability_grid := s.ability_grid
         belief := fun i =>
           s.belief i * obsLikelihood s d o i / ∑ j, s.belief j * obsLikelihood s d o j },
       ∑ i, s.ability_grid i *
         (s.belief i * obsLikelihood s d o i / ∑ j, s.belief j * obsLikelihood s d o j)) := by
  unfold ActiveInferenceLearner.update_belief obsLikelihood
    ActiveInferenceLearner.get_estimated_ability
  by_cases h : o = 0 <;> simp [h]

/-- Normalizing a nonnegative vector with positive total yields a
probability vector. -/
lemma normalize_prob {n : ℕ} (u : Fin n → ℝ) (hnn : ∀ i, 0 ≤ u i)
    (hpos : 0 < ∑ i, u i) :
    (∀ i, 0 ≤ u i / ∑ j, u j) ∧ (∑ i, u i / ∑ j, u j) = 1 := by
  constructor
  · intro i
    exact div_nonneg (hnn i) hpos.le
  · rw [← Finset.sum_div]
    exact div_self hpos.ne'

/-- A nonnegative vector of total 1 has a strictly positive entry. -/
lemma exists_pos_of_prob {n : ℕ} (p : Fin n → ℝ) (hnn : ∀ i, 0 ≤ p i)
    (hsum : ∑ i, p i = 1) : ∃ i, 0 < p i := by
  by_contra h
  push_neg at h
  have : ∑ i, p i ≤ 0 := Finset.sum_nonpos (fun i _ => h i)
  rw [hsum] at this
  linarith

/-- One update_belief call, with any difficulty and outcome whatsoever,
carries a probability-vector belief to a probability-vector belief: the
effective likelihood has strictly positive entries, so the normalizing sum
is strictly positive. -/
lemma update_preserves_prob {n : ℕ} (s : ActiveInferenceLearner n)
    (hnn : ∀ i, 0 ≤ s.belief i) (hsum : ∑ i, s.belief i = 1) (d o : ℝ) :
    (∀ i, 0 ≤ (s.update_belief d o).1.belief i) ∧
      (∑ i, (s.update_belief d o).1.belief i) = 1 := by
  obtain ⟨i0, hi0⟩ := exists_pos_of_prob s.belief hnn hsum
  have hunn : ∀ i, 0 ≤ s.belief i * obsLikelihood s d o i :=
    fun i => mul_nonneg (hnn i) (obsLikelihood_bounds s d o i).1.le
  have hupos : 0 < ∑ i, s.belief i * obsLikelihood s d o i :=
    Finset.sum_pos' (fun i _ => hunn i)
      ⟨i0, Finset.mem_univ i0, mul_pos hi0 (obsLikelihood_bounds s d o i0).1⟩
  have h := normalize_prob (fun i => s.belief i * obsLikelihood s d o i) hunn hupos
  rw [update_belief_eq]
  exact h

/-- The uniform initial belief is a probability vector (for a positive
grid size). -/
lemma init_prob {n : ℕ} (hn : 0 < n) :
    (∀ i, 0 ≤ (ActiveInferenceLearner.init n).belief i) ∧
      (∑ i, (ActiveInferenceLearner.init n).belief i) = 1 := by
  have hn' : ((n : ℝ)) ≠ 0 := Nat.cast_ne_zero.mpr hn.ne'
  constructor
  · intro i
    unfold ActiveInferenceLearner.init
    positivity
  · unfold ActiveInferenceLearner.init
    simp [Finset.sum_const, Finset.card_univ, nsmul_eq_mul]
    field_simp

/-- The normalization invariant holds at every reachable state. -/
lemma reachable_prob {n : ℕ} (hn : 0 < n) {s : ActiveInferenceLearner n}
    (hs : Reachable s) :
    (∀ i, 0 ≤ s.belief i) ∧ (∑ i, s.belief i) = 1 := by
  induction hs with
  | init => exact init_prob hn
  | step d o hd0 hd1 hs ih => exact update_preserves_prob _ ih.1 ih.2 d o

/-- On a vector that already sums to 1, the normalization inside
scipy.stats.entropy is the identity. -/
lemma entropy_of_sum_one {n : ℕ} (p : Fin n → ℝ) (hsum : ∑ i, p i = 1) :
    entropy p = ∑ i, Real.negMulLog (p i) := by
  unfold entropy
  simp only [hsum, div_one]

/-- Termwise Gibbs bound against the uniform weight 1/n. -/
lemma negMulLog_le_uniform {n : ℕ} (hn : 0 < n) {x : ℝ} (hx : 0 ≤ x) :
    Real.negMulLog x ≤ 1 / n - x + x * Real.log n := by
  have hn' : (0:ℝ) < (n:ℝ) := Nat.cast_pos.mpr hn
  rcases hx.eq_or_lt with h0 | hxpos
  · rw [← h0]
    simp only [Real.negMulLog_zero, sub_zero, zero_mul, add_zero]
    positivity
  · have hpos : (0:ℝ) < 1 / ((n:ℝ) * x) := by positivity
    have hlog := Real.log_le_sub_one_of_pos hpos
    rw [one_div, Real.log_inv, Real.log_mul hn'.ne' hxpos.ne'] at hlog
    have hmul := mul_le_mul_of_nonneg_left hlog hx
    have hxn : x * (((n:ℝ) * x)⁻¹ - 1) = 1 / n - x := by
      field_simp
      ring
    rw [hxn] at hmul
    rw [Real.negMulLog]
    nlinarith [hmul]

/-- Strict termwise Gibbs bound when the entry differs from 1/n. -/
lemma negMulLog_lt_uniform {n : ℕ} (hn : 0 < n) {x : ℝ} (hx : 0 ≤ x)
    (hne : x ≠ 1 / n) :
    Real.negMulLog x < 1 / n - x + x * Real.log n := by
  have hn' : (0:ℝ) < (n:ℝ) := Nat.cast_pos.mpr hn
  rcases hx.eq_or_lt with h0 | hxpos
  · rw [← h0]
    simp only [Real.negMulLog_zero, sub_zero, zero_mul, add_zero]
    positivity
  · have hpos : (0:ℝ) < 1 / ((n:ℝ) * x) := by positivity
    have hone : 1 / ((n:ℝ) * x) ≠ 1 := by
      intro h
      apply hne
      field_simp at h
      rw [h]
      field_simp
    have hlog := Real.log_lt_sub_one_of_pos hpos hone
    rw [one_div, Real.log_inv, Real.log_mul hn'.ne' hxpos.ne'] at hlog
    have hmul := mul_lt_mul_of_pos_left hlog hxpos
    have hxn : x * (((n:ℝ) * x)⁻¹ - 1) = 1 / n - x := by
      field_simp
      ring
    rw [hxn] at hmul
    rw [Real.negMulLog]
    nlinarith [hmul]

/-- The uniform bound sums to log n over a probability vector. -/
lemma sum_uniform_bound_eq {n : ℕ} (hn : 0 < n) (p : Fin n → ℝ)
    (hsum : ∑ i, p i = 1) :
    ∑ i : Fin n, (1 / (n:ℝ) - p i + p i * Real.log n) = Real.log n := by
  have hn' : ((n:ℝ)) ≠ 0 := Nat.cast_ne_zero.mpr hn.ne'
  rw [Finset.sum_add_distrib, Finset.sum_sub_distrib, ← Finset.sum_mul, hsum,
    Finset.sum_const, Finset.card_univ, Fintype.card_fin, nsmul_eq_mul,
    mul_one_div, div_self hn', one_mul]
  ring

/-- Shannon entropy of a probability vector on n points is at most log n. -/
lemma sum_negMulLog_le_log {n : ℕ} (hn : 0 < n) (p : Fin n → ℝ)
    (hnn : ∀ i, 0 ≤ p i) (hsum : ∑ i, p i = 1) :
    ∑ i, Real.negMulLog (p i) ≤ Real.log n := by
  have h := Finset.sum_le_sum
    (fun i (_ : i ∈ Finset.univ) => negMulLog_le_uniform hn (hnn i))
  rw [sum_uniform_bound_eq hn p hsum] at h
  exact h

/-- The entropy bound is strict as soon as one entry differs from 1/n. -/
lemma sum_negMulLog_lt_log {n : ℕ} (hn : 0 < n) (p : Fin n → ℝ)
    (hnn : ∀ i, 0 ≤ p i) (hsum : ∑ i, p i = 1) (i0 : Fin n)
    (hne : p i0 ≠ 1 / n) :
    ∑ i, Real.negMulLog (p i) < Real.log n := by
  have h := Finset.sum_lt_sum
    (fun i (_ : i ∈ Finset.univ) => negMulLog_le_uniform hn (hnn i))
    ⟨i0, Finset.mem_univ i0, negMulLog_lt_uniform hn (hnn i0) hne⟩
  rw [sum_uniform_bound_eq hn p hsum] at h
  exact h

/-- Shannon entropy of a probability vector is nonnegative. -/
lemma sum_negMulLog_nonneg {n : ℕ} (p : Fin n → ℝ)
    (hnn : ∀ i, 0 ≤ p i) (hsum : ∑ i, p i = 1) :
    0 ≤ ∑ i, Real.negMulLog (p i) := by
  refine Finset.sum_nonneg fun i _ => Real.negMulLog_nonneg (hnn i) ?_
  have := Finset.single_le_sum (f := p) (fun j _ => hnn j) (Finset.mem_univ i)
  rw [hsum] at this
  exact this

/-- The entropy of the freshly constructed uniform belief is log n. -/
lemma entropy_init {n : ℕ} (hn : 0 < n) :
    (ActiveInferenceLearner.init n).get_current_entropy = Real.log n := by
  have hn' : ((n:ℝ)) ≠ 0 := Nat.cast_ne_zero.mpr hn.ne'
  have hsum := (init_prob hn).2
  unfold ActiveInferenceLearner.get_current_entropy
  rw [entropy_of_sum_one _ hsum]
  unfold ActiveInferenceLearner.init
  simp only [Finset.sum_const, Finset.card_univ, Fintype.card_fin, nsmul_eq_mul]
  rw [Real.negMulLog, one_div, Real.log_inv]
  field_simp

/-- Unfolding equation for calculate_eig in terms of entropy and the
predicted likelihood grid. -/
lemma calculate_eig_eq {n : ℕ} (s : ActiveInferenceLearner n) (d : ℝ) :
    s.calculate_eig d =
      entropy s.belief -
        ((∑ i, s.predict_success_prob d (s.ability_grid i) * s.belief i) *
            entropy (fun i => s.belief i * s.predict_success_prob d (s.ability_grid i) /
              ∑ j, s.belief j * s.predict_success_prob d (s.ability_grid j)) +
          (1 - ∑ i, s.predict_success_prob d (s.ability_grid i) * s.belief i) *
            entropy (fun i => s.belief i * (1 - s.predict_success_prob d (s.ability_grid i)) /
              ∑ j, s.belief j * (1 - s.predict_success_prob d (s.ability_grid j)))) := by
  unfold ActiveInferenceLearner.calculate_eig
  norm_num

/-- Concavity of Shannon entropy applied to the two-outcome mixture:
the expected entropy of the two normalized simulated posteriors, weighted
by the predicted outcome probabilities, is at most the entropy of the
current belief.  This is the mathematical heart of EIG nonnegativity. -/
lemma mixture_entropy_le {n : ℕ} (b l : Fin n → ℝ)
    (hb0 : ∀ i, 0 ≤ b i) (hbsum : ∑ i, b i = 1)
    (hl0 : ∀ i, 0 < l i) (hl1 : ∀ i, l i < 1) :
    (∑ i, l i * b i) * entropy (fun i => b i * l i / ∑ j, b j * l j)
      + (1 - ∑ i, l i * b i) *
          entropy (fun i => b i * (1 - l i) / ∑ j, b j * (1 - l j))
      ≤ entropy b := by
  have hunn : ∀ i, 0 ≤ b i * l i := fun i => mul_nonneg (hb0 i) (hl0 i).le
  have hvnn : ∀ i, 0 ≤ b i * (1 - l i) :=
    fun i => mul_nonneg (hb0 i) (by linarith [hl1 i])
  obtain ⟨i0, hi0⟩ := exists_pos_of_prob b hb0 hbsum
  have hSu : 0 < ∑ j, b j * l j :=
    Finset.sum_pos' (fun i _ => hunn i)
      ⟨i0, Finset.mem_univ i0, mul_pos hi0 (hl0 i0)⟩
  have hSv : 0 < ∑ j, b j * (1 - l j) :=
    Finset.sum_pos' (fun i _ => hvnn i)
      ⟨i0, Finset.mem_univ i0, mul_pos hi0 (by linarith [hl1 i0])⟩
  have hpc : (∑ i, l i * b i) = ∑ j, b j * l j :=
    Finset.sum_congr rfl (fun i _ => mul_comm _ _)
  have hsplit : (∑ j, b j * l j) + (∑ j, b j * (1 - l j)) = 1 := by
    rw [← Finset.sum_add_distrib,
      Finset.sum_congr rfl (fun j (_ : j ∈ Finset.univ) =>
        show b j * l j + b j * (1 - l j) = b j by ring), hbsum]
  have hpw : 1 - (∑ i, l i * b i) = ∑ j, b j * (1 - l j) := by
    rw [hpc]
    linarith [hsplit]
  have hec : entropy (fun i => b i * l i / ∑ j, b j * l j)
      = ∑ i, Real.negMulLog (b i * l i / ∑ j, b j * l j) :=
    entropy_of_sum_one _ ((normalize_prob (fun i => b i * l i) hunn hSu).2)
  have hew : entropy (fun i => b i * (1 - l i) / ∑ j, b j * (1 - l j))
      = ∑ i, Real.negMulLog (b i * (1 - l i) / ∑ j, b j * (1 - l j)) :=
    entropy_of_sum_one _ ((normalize_prob (fun i => b i * (1 - l i)) hvnn hSv).2)
  have heb : entropy b = ∑ i, Real.negMulLog (b i) := entropy_of_sum_one b hbsum
  rw [hec, hew, heb, hpw, hpc, Finset.mul_sum, Finset.mul_sum,
    ← Finset.sum_add_distrib]
  apply Finset.sum_le_sum
  intro i _
  have hmemx : b i * l i / ∑ j, b j * l j ∈ Set.Ici (0:ℝ) :=
    Set.mem_Ici.mpr (div_nonneg (hunn i) hSu.le)
  have hmemy : b i * (1 - l i) / ∑ j, b j * (1 - l j) ∈ Set.Ici (0:ℝ) :=
    Set.mem_Ici.mpr (div_nonneg (hvnn i) hSv.le)
  have h := Real.concaveOn_negMulLog.2 hmemx hmemy hSu.le hSv.le hsplit
  simp only [smul_eq_mul] at h
  have harg : (∑ j, b j * l j) * (b i * l i / ∑ j, b j * l j)
      + (∑ j, b j * (1 - l j)) * (b i * (1 - l i) / ∑ j, b j * (1 - l j))
      = b i := by
    field_simp
    ring
  rw [harg] at h
  exact h

/-- EIG is nonnegative whenever the belief is a probability vector. -/
lemma eig_nonneg_core {n : ℕ} (s : ActiveInferenceLearner n)
    (hnn : ∀ i, 0 ≤ s.belief i) (hsum : ∑ i, s.belief i = 1) (d : ℝ) :
    0 ≤ s.calculate_eig d := by
  rw [calculate_eig_eq, sub_nonneg]
  exact mixture_entropy_le s.belief
    (fun i => s.predict_success_prob d (s.ability_grid i))
    hnn hsum (fun i => (predict_success_prob_bounds s d _).1)
    (fun i => (predict_success_prob_bounds s d _).2)

/-- The likelihood actually used: the complement branch at outcome 0. -/
lemma obsLikelihood_zero {n : ℕ} (s : ActiveInferenceLearner n) (d : ℝ)
    (i : Fin n) :
    obsLikelihood s d 0 i = 1 - s.predict_success_prob d (s.ability_grid i) := by
  unfold obsLikelihood
  rw [if_pos rfl]

/-- The likelihood actually used: the plain branch at any nonzero outcome. -/
lemma obsLikelihood_of_ne {n : ℕ} (s : ActiveInferenceLearner n) (d o : ℝ)
    (ho : o ≠ 0) (i : Fin n) :
    obsLikelihood s d o i = s.predict_success_prob d (s.ability_grid i) := by
  unfold obsLikelihood
  rw [if_neg ho]

/-- The first two grid points of the constructed ability grid are distinct
(strictly increasing), for any grid size of at least 2. -/
lemma init_grid_lt {n : ℕ} (hn : 2 ≤ n) :
    (ActiveInferenceLearner.init n).ability_grid ⟨0, by omega⟩
      < (ActiveInferenceLearner.init n).ability_grid ⟨1, by omega⟩ := by
  have hne : n ≠ 1 := by omega
  have hcast : (2:ℝ) ≤ (n:ℝ) := by exact_mod_cast hn
  unfold ActiveInferenceLearner.init linspace
  simp only
  rw [if_neg hne, if_neg hne]
  have h1 : (((⟨0, by omega⟩ : Fin n) : ℕ) : ℝ) = 0 := by norm_num
  have h2 : (((⟨1, by omega⟩ : Fin n) : ℕ) : ℝ) = 1 := by norm_num
  have hpos : (0:ℝ) < (0.99 - 0.01) / ((n:ℝ) - 1) := by
    apply div_pos (by norm_num)
    linarith
  rw [h1, h2, zero_mul, one_mul, zero_div]
  linarith [hpos]

/-- After the very first update from the uniform prior, the belief is not
uniform any more when the grid has at least two points: the effective
likelihood separates the first two grid points. -/
lemma first_update_not_uniform {n : ℕ} (hn : 2 ≤ n) (d o : ℝ) :
    ∃ i : Fin n,
      ((ActiveInferenceLearner.init n).update_belief d o).1.belief i ≠ 1 / n := by
  have hn0 : 0 < n := by omega
  have hnR : (0:ℝ) < (n:ℝ) := Nat.cast_pos.mpr hn0
  set s := ActiveInferenceLearner.init n with hs
  have hgrid : s.ability_grid ⟨0, by omega⟩ < s.ability_grid ⟨1, by omega⟩ :=
    init_grid_lt hn
  have hlne : obsLikelihood s d o ⟨0, by omega⟩ ≠ obsLikelihood s d o ⟨1, by omega⟩ := by
    have hP := predict_success_prob_strictMono s d hgrid
    by_cases h : o = 0
    · rw [h, obsLikelihood_zero, obsLikelihood_zero]
      intro heq
      linarith [hP]
    · rw [obsLikelihood_of_ne s d o h, obsLikelihood_of_ne s d o h]
      exact ne_of_lt hP
  have hbel : ∀ i : Fin n, s.belief i = 1 / (n:ℝ) := fun i => rfl
  have hS : 0 < ∑ j, s.belief j * obsLikelihood s d o j := by
    apply Finset.sum_pos
    · intro i _
      apply mul_pos _ (obsLikelihood_bounds s d o i).1
      rw [hbel i]
      positivity
    · exact Finset.univ_nonempty_iff.mpr ⟨⟨0, by omega⟩⟩
  have key : ∀ i : Fin n,
      s.belief i * obsLikelihood s d o i /
          (∑ j, s.belief j * obsLikelihood s d o j) = 1 / (n:ℝ) →
      obsLikelihood s d o i = ∑ j, s.belief j * obsLikelihood s d o j := by
    intro i hi
    rw [hbel i, div_eq_iff hS.ne'] at hi
    exact mul_left_cancel₀ (one_div_ne_zero hnR.ne') hi
  by_contra hcon
  push_neg at hcon
  have h0 := hcon ⟨0, by omega⟩
  have h1 := hcon ⟨1, by omega⟩
  simp only [update_belief_eq] at h0 h1
  exact hlne ((key _ h0).trans (key _ h1).symm)

/-- After the first valid update from the uniform prior, the entropy lies
strictly below log of the grid size (for grid size at least 2). -/
lemma first_update_entropy_lt {n : ℕ} (hn : 2 ≤ n) (d o : ℝ) :
    ((ActiveInferenceLearner.init n).update_belief d o).1.get_current_entropy
      < Real.log n := by
  have hn0 : 0 < n := by omega
  have hprob := update_preserves_prob _ (init_prob hn0).1 (init_prob hn0).2 d o
  obtain ⟨i0, hi0⟩ := first_update_not_uniform hn d o
  unfold ActiveInferenceLearner.get_current_entropy
  rw [entropy_of_sum_one _ hprob.2]
  exact sum_negMulLog_lt_log hn0 _ hprob.1 hprob.2 i0 hi0

/-- Entropy bounds at every reachable state. -/
lemma reachable_entropy_bounds {n : ℕ} (hn : 0 < n)
    {s : ActiveInferenceLearner n} (hs : Reachable s) :
    0 ≤ s.get_current_entropy ∧ s.get_current_entropy ≤ Real.log n := by
  obtain ⟨hnn, hsum⟩ := reachable_prob hn hs
  unfold ActiveInferenceLearner.get_current_entropy
  rw [entropy_of_sum_one _ hsum]
  exact ⟨sum_negMulLog_nonneg _ hnn hsum, sum_negMulLog_le_log hn _ hnn hsum⟩

/-- Unfolding equation for select_next_question. -/
lemma select_next_question_eq {n : ℕ} (s : ActiveInferenceLearner n)
    (pool : List Question) (hist : List ℕ) :
    s.select_next_question pool hist =
      if (pool.filter fun q => decide (q.id ∉ hist)).isEmpty then none
      else (((pool.filter fun q => decide (q.id ∉ hist)).reverse.insertionSort
          (fun q1 q2 =>
            s.calculate_eig q1.difficulty ≤ s.calculate_eig q2.difficulty)).reverse).head? :=
  rfl

/-- What select_next_question returns on a nonempty filtered pool (for a
pool whose ids are distinct): some still-unanswered question of the pool
whose EIG is maximal among the still-unanswered questions, and the FIRST
such maximal question in pool order — every unanswered question preceding
it in the filtered pool has strictly smaller EIG.  The first-occurrence
property follows from the stability of the ascending sort and the double
reversal around it. -/
lemma select_next_question_spec {n : ℕ} (s : ActiveInferenceLearner n)
    (pool : List Question) (hist : List ℕ)
    (hids : (pool.map Question.id).Nodup)
    (hne : pool.filter (fun q => decide (q.id ∉ hist)) ≠ []) :
    ∃ q, s.select_next_question pool hist = some q ∧ q ∈ pool ∧ q.id ∉ hist
      ∧ (∀ q2 ∈ pool, q2.id ∉ hist →
          s.calculate_eig q2.difficulty ≤ s.calculate_eig q.difficulty)
      ∧ ∃ pre post,
          pool.filter (fun q => decide (q.id ∉ hist)) = pre ++ q :: post
            ∧ ∀ q2 ∈ pre,
                s.calculate_eig q2.difficulty < s.calculate_eig q.difficulty := by
  haveI : IsTotal Question (fun q1 q2 =>
      s.calculate_eig q1.difficulty ≤ s.calculate_eig q2.difficulty) :=
    ⟨fun a b => le_total _ _⟩
  haveI : IsTrans Question (fun q1 q2 =>
      s.calculate_eig q1.difficulty ≤ s.calculate_eig q2.difficulty) :=
    ⟨fun a b c hab hbc => le_trans hab hbc⟩
  set A : List Question := pool.filter (fun q => decide (q.id ∉ hist)) with hA
  have hAff : A.isEmpty = false := by
    cases hAc : A with
    | nil => exact absurd hAc hne
    | cons a l => rfl
  have hperm := List.perm_insertionSort (fun q1 q2 =>
    s.calculate_eig q1.difficulty ≤ s.calculate_eig q2.difficulty) A.reverse
  have hLne : A.reverse.insertionSort (fun q1 q2 =>
      s.calculate_eig q1.difficulty ≤ s.calculate_eig q2.difficulty) ≠ [] := by
    intro h
    rw [h] at hperm
    have hrev : A.reverse = [] := hperm.symm.eq_nil
    exact hne (by simpa using hrev)
  have hrevne : (A.reverse.insertionSort (fun q1 q2 =>
      s.calculate_eig q1.difficulty ≤ s.calculate_eig q2.difficulty)).reverse ≠ [] := by
    simpa using hLne
  obtain ⟨q, t, hqt⟩ := List.exists_cons_of_ne_nil hrevne
  have hsorted := List.sorted_insertionSort (fun q1 q2 =>
    s.calculate_eig q1.difficulty ≤ s.calculate_eig q2.difficulty) A.reverse
  have hpairrev : List.Pairwise
      (fun a b => s.calculate_eig b.difficulty ≤ s.calculate_eig a.difficulty)
      (A.reverse.insertionSort (fun q1 q2 =>
        s.calculate_eig q1.difficulty ≤ s.calculate_eig q2.difficulty)).reverse := by
    rw [List.pairwise_reverse]
    exact hsorted
  rw [hqt] at hpairrev
  have hqmax : ∀ x ∈ t, s.calculate_eig x.difficulty ≤ s.calculate_eig q.difficulty :=
    fun x hx => (List.pairwise_cons.mp hpairrev).1 x hx
  have hmemS : ∀ x : Question,
      x ∈ (A.reverse.insertionSort (fun q1 q2 =>
        s.calculate_eig q1.difficulty ≤ s.calculate_eig q2.difficulty)).reverse
        ↔ x ∈ A := by
    intro x
    rw [List.mem_reverse, hperm.mem_iff, List.mem_reverse]
  have hqmem : q ∈ A := by
    rw [← hmemS q, hqt]
    exact List.mem_cons_self q t
  have hmax : ∀ x ∈ A, s.calculate_eig x.difficulty ≤ s.calculate_eig q.difficulty := by
    intro x hx
    have hxqt : x ∈ q :: t := by
      rw [← hqt, hmemS]
      exact hx
    rcases List.mem_cons.mp hxqt with h | h
    · rw [h]
    · exact hqmax x h
  have hqfil := List.mem_filter.mp hqmem
  have hAnodup : A.Nodup := by
    have hsub : List.Sublist (A.map Question.id) (pool.map Question.id) :=
      (List.filter_sublist pool).map Question.id
    exact (hids.sublist hsub).of_map
  obtain ⟨pre, post, hdecomp⟩ := List.append_of_mem hqmem
  have hqpre : q ∉ pre := by
    intro hq
    have hnd := hdecomp ▸ hAnodup
    rw [List.nodup_append] at hnd
    exact hnd.2.2 hq (List.mem_cons_self q post)
  have hsel : s.select_next_question pool hist = some q := by
    rw [select_next_question_eq, ← hA, if_neg (by rw [hAff]; simp), hqt]
    rfl
  have hstrict : ∀ x ∈ pre,
      s.calculate_eig x.difficulty < s.calculate_eig q.difficulty := by
    intro x hx
    have hxA : x ∈ A := by
      rw [hdecomp]
      exact List.mem_append_left _ hx
    rcases lt_or_le (s.calculate_eig x.difficulty) (s.calculate_eig q.difficulty)
      with h | h
    · exact h
    · exfalso
      have hxq : x ≠ q := fun he => hqpre (he ▸ hx)
      have hsub1 : List.Sublist [q, x] A.reverse := by
        have h1 : List.Sublist [q, x] (q :: pre.reverse) :=
          List.Sublist.cons₂ q (List.singleton_sublist.mpr (List.mem_reverse.mpr hx))
        have h3 : A.reverse = post.reverse ++ (q :: pre.reverse) := by
          rw [hdecomp]
          simp
        rw [h3]
        exact h1.trans (List.sublist_append_right _ _)
      have hsubS : List.Sublist [q, x]
          (A.reverse.insertionSort (fun q1 q2 =>
            s.calculate_eig q1.difficulty ≤ s.calculate_eig q2.difficulty)) :=
        @List.pair_sublist_insertionSort Question
          (fun q1 q2 =>
            s.calculate_eig q1.difficulty ≤ s.calculate_eig q2.difficulty)
          (fun _ _ => Real.decidableLE _ _) q x A.reverse h hsub1
      have hrevsub : List.Sublist [x, q] ((A.reverse.insertionSort (fun q1 q2 =>
          s.calculate_eig q1.difficulty ≤ s.calculate_eig q2.difficulty)).reverse) := by
        simpa using hsubS.reverse
      rw [hqt] at hrevsub
      have hSnodup : ((A.reverse.insertionSort (fun q1 q2 =>
          s.calculate_eig q1.difficulty ≤ s.calculate_eig q2.difficulty)).reverse).Nodup := by
        have h1 : A.reverse.Nodup := by simpa using hAnodup
        exact List.nodup_reverse.mpr (hperm.symm.nodup h1)
      rw [hqt] at hSnodup
      have hq_t : q ∈ t := by
        cases hrevsub with
        | cons _ h2 => exact h2.subset (by simp)
        | cons₂ _ h2 => exact absurd rfl hxq
      exact (List.nodup_cons.mp hSnodup).1 hq_t
  exact ⟨q, hsel, hqfil.1, of_decide_eq_true hqfil.2,
    fun q2 hq2 hh => hmax q2 (List.mem_filter.mpr ⟨hq2, decide_eq_true hh⟩),
    pre, post, hdecomp, hstrict⟩

/-- C1: for every difficulty in [0,1] and every outcome, update_belief
replaces the belief with the normalized Bayesian posterior — new belief i
equals old belief i times the observation likelihood at i (the predicted
success probability for a correct outcome, its complement for outcome 0),
divided by the sum of those products — and it returns the new point
estimate, the sum of grid i times new belief i. -/
theorem C1_update_belief_is_normalized_posterior {n : ℕ}
    (s : ActiveInferenceLearner n) (d o : ℝ) (hd0 : 0 ≤ d) (hd1 : d ≤ 1) :
    (s.update_belief d o).1.belief
        = (fun i => s.belief i * obsLikelihood s d o i /
            ∑ j, s.belief j * obsLikelihood s d o j)
      ∧ (s.update_belief d o).2
        = ∑ i, s.ability_grid i * (s.update_belief d o).1.belief i := by
  rw [update_belief_eq]
  exact ⟨rfl, rfl⟩

/-- Witness for C1: grid size 2, difficulty 1/2, outcome 1. -/
theorem C1_witness :
    ((0:ℝ) ≤ 1/2 ∧ (1/2:ℝ) ≤ 1) ∧
      (((ActiveInferenceLearner.init 2).update_belief (1/2) 1).1.belief
          = (fun i => (ActiveInferenceLearner.init 2).belief i *
              obsLikelihood (ActiveInferenceLearner.init 2) (1/2) 1 i /
              ∑ j, (ActiveInferenceLearner.init 2).belief j *
                obsLikelihood (ActiveInferenceLearner.init 2) (1/2) 1 j)
        ∧ ((ActiveInferenceLearner.init 2).update_belief (1/2) 1).2
          = ∑ i, (ActiveInferenceLearner.init 2).ability_grid i *
              ((ActiveInferenceLearner.init 2).update_belief (1/2) 1).1.belief i) :=
  ⟨⟨by norm_num, by norm_num⟩,
    C1_update_belief_is_normalized_posterior (ActiveInferenceLearner.init 2)
      (1/2) 1 (by norm_num) (by norm_num)⟩

/-- C2: for every difficulty and ability in [0,1], predict_success_prob
equals c + (1 - c - s) * (1 / (1 + exp (-k * (ability - difficulty)))) with
c = 0.25, s = 0.05, k = 10, and it is pure: its value does not depend on
the estimator state (in particular not on the belief). -/
theorem C2_predict_success_prob_formula {n m : ℕ}
    (s : ActiveInferenceLearner n) (t : ActiveInferenceLearner m) (d a : ℝ)
    (hd0 : 0 ≤ d) (hd1 : d ≤ 1) (ha0 : 0 ≤ a) (ha1 : a ≤ 1) :
    s.predict_success_prob d a
        = 0.25 + (1 - 0.25 - 0.05) * (1 / (1 + Real.exp (-10 * (a - d))))
      ∧ s.predict_success_prob d a = t.predict_success_prob d a :=
  ⟨rfl, rfl⟩

/-- Witness for C2: two estimators of different grid sizes, difficulty and
ability 1/2. -/
theorem C2_witness :
    ((0:ℝ) ≤ 1/2 ∧ (1/2:ℝ) ≤ 1) ∧
      ((ActiveInferenceLearner.init 2).predict_success_prob (1/2) (1/2)
          = 0.25 + (1 - 0.25 - 0.05) *
              (1 / (1 + Real.exp (-10 * ((1:ℝ)/2 - 1/2))))
        ∧ (ActiveInferenceLearner.init 2).predict_success_prob (1/2) (1/2)
          = (ActiveInferenceLearner.init 3).predict_success_prob (1/2) (1/2)) :=
  ⟨⟨by norm_num, by norm_num⟩,
    C2_predict_success_prob_formula (ActiveInferenceLearner.init 2)
      (ActiveInferenceLearner.init 3) (1/2) (1/2)
      (by norm_num) (by norm_num) (by norm_num) (by norm_num)⟩

/-- C3: for every sequence of valid update_belief calls from a freshly
constructed estimator with positive grid size, the belief entries stay
nonnegative and sum exactly to 1 (so in particular within the 1e-9
tolerance the spec allows) after construction and after every update. -/
theorem C3_normalization_invariant {n : ℕ} (hn : 0 < n)
    (s : ActiveInferenceLearner n) (hs : Reachable s) :
    (∀ i, 0 ≤ s.belief i) ∧ (∑ i, s.belief i) = 1 :=
  reachable_prob hn hs

/-- Witness for C3: the state after one valid update at grid size 2. -/
theorem C3_witness :
    (0 < 2 ∧ Reachable ((ActiveInferenceLearner.init 2).update_belief (1/2) 1).1) ∧
      ((∀ i, 0 ≤ ((ActiveInferenceLearner.init 2).update_belief (1/2) 1).1.belief i)
        ∧ (∑ i, ((ActiveInferenceLearner.init 2).update_belief (1/2) 1).1.belief i) = 1) :=
  ⟨⟨by norm_num,
      Reachable.step (1/2) 1 (by norm_num) (by norm_num) Reachable.init⟩,
    C3_normalization_invariant (by norm_num) _
      (Reachable.step (1/2) 1 (by norm_num) (by norm_num) Reachable.init)⟩

/-- C6: at every belief state reachable by valid updates (positive grid
size) and for every difficulty in [0,1], calculate_eig is nonnegative
in exact arithmetic. -/
theorem C6_eig_nonneg {n : ℕ} (hn : 0 < n) (s : ActiveInferenceLearner n)
    (hs : Reachable s) (d : ℝ) (hd0 : 0 ≤ d) (hd1 : d ≤ 1) :
    0 ≤ s.calculate_eig d := by
  obtain ⟨hnn, hsum⟩ := reachable_prob hn hs
  exact eig_nonneg_core s hnn hsum d

/-- Witness for C6: the freshly constructed estimator of grid size 2 and
difficulty 1/2. -/
theorem C6_witness :
    (0 < 2 ∧ Reachable (ActiveInferenceLearner.init 2)
      ∧ (0:ℝ) ≤ 1/2 ∧ (1/2:ℝ) ≤ 1) ∧
      0 ≤ (ActiveInferenceLearner.init 2).calculate_eig (1/2) :=
  ⟨⟨by norm_num, Reachable.init, by norm_num, by norm_num⟩,
    C6_eig_nonneg (by norm_num) (ActiveInferenceLearner.init 2) Reachable.init
      (1/2) (by norm_num) (by norm_num)⟩

/-- C9: calculate_eig does not mutate the estimator: threading the state
through the call returns the belief array and the ability grid unchanged
(the simulated posteriors are normalized only on local copies), together
with the same number the pure calculate_eig yields. -/
theorem C9_calculate_eig_pure {n : ℕ} (s : ActiveInferenceLearner n) (d : ℝ) :
    (s.calculate_eig_run d).2.belief = s.belief
      ∧ (s.calculate_eig_run d).2.ability_grid = s.ability_grid
      ∧ (s.calculate_eig_run d).1 = s.calculate_eig d :=
  ⟨rfl, rfl, rfl⟩

/-- C10: the outcome argument of update_belief is tested only by equality
with 0: every nonzero outcome (True is 1 in Python arithmetic, and any
other nonzero number behaves the same) gives exactly the update of outcome
1, and outcome 0 uses the complemented likelihood 1 - P. -/
theorem C10_outcome_equality_test {n : ℕ} (s : ActiveInferenceLearner n)
    (d o : ℝ) :
    (o ≠ 0 → s.update_belief d o = s.update_belief d 1)
      ∧ (o = 0 → (s.update_belief d o).1.belief
          = fun i => s.belief i *
              (1 - s.predict_success_prob d (s.ability_grid i)) /
              ∑ j, s.belief j *
                (1 - s.predict_success_prob d (s.ability_grid j))) := by
  constructor
  · intro ho
    rw [update_belief_eq, update_belief_eq]
    simp only [obsLikelihood_of_ne _ _ _ ho, obsLikelihood_of_ne _ _ _ one_ne_zero]
  · intro ho
    subst ho
    rw [update_belief_eq]
    simp only [obsLikelihood_zero]

/-- Witness for C10: outcome 5 behaves exactly like outcome 1. -/
theorem C10_witness :
    (5:ℝ) ≠ 0 ∧
      (ActiveInferenceLearner.init 2).update_belief (1/2) 5
        = (ActiveInferenceLearner.init 2).update_belief (1/2) 1 :=
  ⟨by norm_num,
    (C10_outcome_equality_test (ActiveInferenceLearner.init 2) (1/2) 5).1
      (by norm_num)⟩

/-- First entry of the engineered belief. -/
lemma degenerate_state_belief0 :
    degenerate_state.belief 0
      = (ActiveInferenceLearner.init 2).predict_success_prob (1/2)
          ((ActiveInferenceLearner.init 2).ability_grid 1) := rfl

/-- Second entry of the engineered belief. -/
lemma degenerate_state_belief1 :
    degenerate_state.belief 1
      = -(ActiveInferenceLearner.init 2).predict_success_prob (1/2)
          ((ActiveInferenceLearner.init 2).ability_grid 0) := rfl

/-- The effective likelihood of the engineered state at outcome 1. -/
lemma degenerate_obsLik (j : Fin 2) :
    obsLikelihood degenerate_state (1/2) 1 j
      = (ActiveInferenceLearner.init 2).predict_success_prob (1/2)
          ((ActiveInferenceLearner.init 2).ability_grid j) := by
  rw [obsLikelihood_of_ne _ _ _ one_ne_zero]
  rfl

/-- The unnormalized posterior of the engineered state sums to zero. -/
lemma degenerate_sum_zero :
    (∑ j, degenerate_state.belief j *
        obsLikelihood degenerate_state (1/2) 1 j) = 0 := by
  rw [Fin.sum_univ_two, degenerate_obsLik 0, degenerate_obsLik 1,
    degenerate_state_belief0, degenerate_state_belief1]
  ring

/-- C4 counterexample: a concrete update_belief call whose unnormalized
posterior sums to exactly zero; the call does not fail and does not leave
the belief as it was — it overwrites it (with the degenerate quotient,
which the real-valued semantics evaluates to zero; numpy writes inf/NaN
entries). -/
theorem C4_counterexample :
    (∑ j, degenerate_state.belief j *
        obsLikelihood degenerate_state (1/2) 1 j) = 0
      ∧ (degenerate_state.update_belief (1/2) 1).1.belief
          ≠ degenerate_state.belief := by
  refine ⟨degenerate_sum_zero, fun heq => ?_⟩
  have hnew : (degenerate_state.update_belief (1/2) 1).1.belief 0 = 0 := by
    simp only [update_belief_eq]
    rw [degenerate_sum_zero, div_zero]
  have hpos : 0 < degenerate_state.belief 0 := by
    rw [degenerate_state_belief0]
    exact (predict_success_prob_bounds _ _ _).1
  have h0 : degenerate_state.belief 0 = 0 := (congrFun heq 0).symm.trans hnew
  linarith

/-- C4 (amended): update_belief contains no guard on the normalizing sum:
whenever the unnormalized posterior sums to zero, the division is performed
anyway and the belief is overwritten with the degenerate quotient (the
identically-zero vector in the real-valued semantics, inf/NaN entries in
IEEE floats); no error is raised and the belief is not preserved. -/
theorem C4_no_guard {n : ℕ} (s : ActiveInferenceLearner n) (d o : ℝ)
    (hzero : (∑ j, s.belief j * obsLikelihood s d o j) = 0) :
    (s.update_belief d o).1.belief = fun _ => 0 := by
  simp only [update_belief_eq]
  funext i
  rw [hzero, div_zero]

/-- Witness for C4 (amended) at the all-zero belief state. -/
theorem C4_witness :
    (∑ j, zero_state.belief j * obsLikelihood zero_state (1/2) 1 j) = 0
      ∧ (zero_state.update_belief (1/2) 1).1.belief = fun _ => 0 := by
  have h : (∑ j, zero_state.belief j * obsLikelihood zero_state (1/2) 1 j) = 0 := by
    rw [Fin.sum_univ_one]
    rw [show zero_state.belief 0 = 0 from rfl, zero_mul]
  exact ⟨h, C4_no_guard zero_state (1/2) 1 h⟩

/-- Concrete tie evaluation matching a hand trace of the source: on a
two-candidate pool with identical difficulties (hence identical EIG), the
double reversal around the stable ascending sort returns the FIRST
candidate in pool order, id 1. -/
lemma select_next_question_tie_example :
    (ActiveInferenceLearner.init 2).select_next_question
        [⟨1, 3/10⟩, ⟨2, 3/10⟩] []
      = some ⟨1, 3/10⟩ := by
  rw [select_next_question_eq]
  have hfil : (([⟨1, 3/10⟩, ⟨2, 3/10⟩] : List Question).filter
      (fun q => decide (q.id ∉ ([] : List ℕ))))
      = [⟨1, 3/10⟩, ⟨2, 3/10⟩] := by simp
  rw [hfil, if_neg (by simp)]
  have hrev : ([⟨1, 3/10⟩, ⟨2, 3/10⟩] : List Question).reverse
      = [⟨2, 3/10⟩, ⟨1, 3/10⟩] := rfl
  rw [hrev]
  simp only [List.insertionSort, List.orderedInsert]
  rw [if_pos (le_refl _)]
  rfl

/-- C5: for every pool of distinct-id candidates and every answered set
whose difference is nonempty, select_next_question returns an unanswered
candidate whose EIG is maximal among the unanswered candidates, and on a
tie the one occurring first in the original pool ordering: every
unanswered candidate preceding it (the filter preserves pool order) has
strictly smaller EIG.  Two calls with identical pool, answered set and
belief state return the same candidate because the embedded selection is a
pure function of those arguments. -/
theorem C5_selection_first_occurrence_max {n : ℕ}
    (s : ActiveInferenceLearner n) (pool : List Question) (hist : List ℕ)
    (hids : (pool.map Question.id).Nodup)
    (hne : pool.filter (fun q => decide (q.id ∉ hist)) ≠ []) :
    ∃ q, s.select_next_question pool hist = some q ∧ q ∈ pool ∧ q.id ∉ hist
      ∧ (∀ q2 ∈ pool, q2.id ∉ hist →
          s.calculate_eig q2.difficulty ≤ s.calculate_eig q.difficulty)
      ∧ ∃ pre post,
          pool.filter (fun q => decide (q.id ∉ hist)) = pre ++ q :: post
            ∧ ∀ q2 ∈ pre,
                s.calculate_eig q2.difficulty < s.calculate_eig q.difficulty :=
  select_next_question_spec s pool hist hids hne

/-- Witness for C5: the tied two-candidate pool with nothing answered. -/
theorem C5_witness :
    ((([⟨1, 3/10⟩, ⟨2, 3/10⟩] : List Question).map Question.id).Nodup
        ∧ ([⟨1, 3/10⟩, ⟨2, 3/10⟩] : List Question).filter
            (fun q => decide (q.id ∉ ([] : List ℕ))) ≠ [])
      ∧ ∃ q, (ActiveInferenceLearner.init 2).select_next_question
            [⟨1, 3/10⟩, ⟨2, 3/10⟩] [] = some q
          ∧ q ∈ ([⟨1, 3/10⟩, ⟨2, 3/10⟩] : List Question)
          ∧ q.id ∉ ([] : List ℕ)
          ∧ (∀ q2 ∈ ([⟨1, 3/10⟩, ⟨2, 3/10⟩] : List Question),
              q2.id ∉ ([] : List ℕ) →
                (ActiveInferenceLearner.init 2).calculate_eig q2.difficulty
                  ≤ (ActiveInferenceLearner.init 2).calculate_eig q.difficulty)
          ∧ ∃ pre post,
              ([⟨1, 3/10⟩, ⟨2, 3/10⟩] : List Question).filter
                  (fun q => decide (q.id ∉ ([] : List ℕ))) = pre ++ q :: post
                ∧ ∀ q2 ∈ pre,
                    (ActiveInferenceLearner.init 2).calculate_eig q2.difficulty
                      < (ActiveInferenceLearner.init 2).calculate_eig q.difficulty :=
  ⟨⟨by simp, by simp⟩,
    C5_selection_first_occurrence_max (ActiveInferenceLearner.init 2)
      [⟨1, 3/10⟩, ⟨2, 3/10⟩] [] (by simp) (by simp)⟩

/-- C7 counterexample: update_belief with difficulty 2 (outside [0,1]) does
not raise anything: it performs the ordinary normalized Bayesian update
(the new belief still sums to 1) and changes the belief; and construction
with grid_size = 0 does not raise either — it just yields the empty grid
and belief. -/
theorem C7_counterexample :
    (∑ i, ((ActiveInferenceLearner.init 2).update_belief 2 1).1.belief i) = 1
      ∧ ((ActiveInferenceLearner.init 2).update_belief 2 1).1.belief
          ≠ (ActiveInferenceLearner.init 2).belief
      ∧ (∑ i, (ActiveInferenceLearner.init 0).belief i) = 0 := by
  refine ⟨(update_preserves_prob _ (init_prob (by norm_num)).1
      (init_prob (by norm_num)).2 2 1).2, fun heq => ?_, by simp⟩
  obtain ⟨i, hi⟩ := first_update_not_uniform (n := 2) (by norm_num) 2 1
  exact hi ((congrFun heq i).trans rfl)

/-- C7 (amended): there is no input validation in the source: update_belief
processes every difficulty — in range or not — with the same normalized
Bayesian update (the new belief of a probability-vector state still sums to
1; nothing is raised and nothing is clamped), and a grid_size of 0 is
accepted by the constructor (empty belief).  A negative grid size cannot
even be expressed against numpy linspace other than through numpy raising
its own error, not an InvalidInput of this code. -/
theorem C7_no_validation {n : ℕ} (s : ActiveInferenceLearner n)
    (hnn : ∀ i, 0 ≤ s.belief i) (hsum : (∑ i, s.belief i) = 1) (d o : ℝ) :
    (∑ i, (s.update_belief d o).1.belief i) = 1 :=
  (update_preserves_prob s hnn hsum d o).2

/-- Witness for C7 (amended): the out-of-range difficulty 2 is processed
without failure. -/
theorem C7_witness :
    ((∀ i, 0 ≤ (ActiveInferenceLearner.init 2).belief i)
        ∧ (∑ i, (ActiveInferenceLearner.init 2).belief i) = 1)
      ∧ (∑ i, ((ActiveInferenceLearner.init 2).update_belief 2 1).1.belief i) = 1 :=
  ⟨⟨(init_prob (by norm_num)).1, (init_prob (by norm_num)).2⟩,
    C7_no_validation _ (init_prob (by norm_num)).1
      (init_prob (by norm_num)).2 2 1⟩

/-- C8 counterexample: with grid_size 1 the entropy equals log(grid_size)
(= 0) not only immediately after construction but also after a valid
update, so equality with log(grid_size) is not exclusive to the
just-constructed state. -/
theorem C8_counterexample :
    ((ActiveInferenceLearner.init 1).update_belief (1/2) 1).1.get_current_entropy
        = Real.log 1
      ∧ (ActiveInferenceLearner.init 1).get_current_entropy = Real.log 1 := by
  have h1 : (0:ℕ) < 1 := one_pos
  have hprob := update_preserves_prob _ (init_prob h1).1 (init_prob h1).2 (1/2) 1
  have hb0 : ((ActiveInferenceLearner.init 1).update_belief (1/2) 1).1.belief 0 = 1 := by
    have h := hprob.2
    rwa [Fin.sum_univ_one] at h
  constructor
  · unfold ActiveInferenceLearner.get_current_entropy
    rw [entropy_of_sum_one _ hprob.2, Fin.sum_univ_one, hb0]
    simp
  · rw [entropy_init h1]
    norm_num

/-- C8 (amended): at every reachable state (positive grid size) the
entropy lies in [0, log(grid_size)]; immediately after construction it
equals log(grid_size) exactly; and for a grid size of at least 2 it drops
strictly below log(grid_size) after the first valid update.  (The original
"never equals log(grid_size) after a valid update" fails at grid_size 1,
where the entropy is identically log 1 = 0, and equality can also recur
after longer update sequences, so the amendment restricts the strict drop
to the first update and grid sizes of at least 2.) -/
theorem C8_entropy_bounds {n : ℕ} (hn : 0 < n) (s : ActiveInferenceLearner n)
    (hs : Reachable s) :
    (0 ≤ s.get_current_entropy ∧ s.get_current_entropy ≤ Real.log n)
      ∧ (ActiveInferenceLearner.init n).get_current_entropy = Real.log n
      ∧ (2 ≤ n → ∀ d o : ℝ, 0 ≤ d → d ≤ 1 →
          ((ActiveInferenceLearner.init n).update_belief d o).1.get_current_entropy
            < Real.log n) :=
  ⟨reachable_entropy_bounds hn hs, entropy_init hn,
    fun hn2 d o _ _ => first_update_entropy_lt hn2 d o⟩

/-- Witness for C8 (amended) at grid size 2 and the initial state. -/
theorem C8_witness :
    (0 < 2 ∧ Reachable (ActiveInferenceLearner.init 2)) ∧
      ((0 ≤ (ActiveInferenceLearner.init 2).get_current_entropy
          ∧ (ActiveInferenceLearner.init 2).get_current_entropy ≤ Real.log 2)
        ∧ (ActiveInferenceLearner.init 2).get_current_entropy = Real.log 2
        ∧ (2 ≤ 2 → ∀ d o : ℝ, 0 ≤ d → d ≤ 1 →
            ((ActiveInferenceLearner.init 2).update_belief d o).1.get_current_entropy
              < Real.log 2)) :=
  ⟨⟨by norm_num, Reachable.init⟩,
    by simpa using
      C8_entropy_bounds (by norm_num) (ActiveInferenceLearner.init 2) Reachable.init⟩

end AdaptiveLearning
